import Mathlib

/-!
Shallow embedding of the dimensional pricing engine of the
yournextblinds backend (src/api/pricing/pricing.services.ts) together
with proofs of the specified properties.  The Prisma-backed store is
modelled as explicit lists of rows; `findFirst` with an `orderBy`
clause is modelled as selecting the extremal row for the order among
the rows matching the `where` clause, and `findUnique` / `findMany`
as `List.find?` / `List.filter`.  Decimal prices are modelled as `ℚ`.
-/

set_option maxRecDepth 10000

deriving instance DecidableEq for Except

namespace YourNextBlinds

/-- A row of the WidthBand table: `{ widthMm, widthInches, sortOrder }`. -/
structure WidthBand where
  id : String
  widthMm : Int
  widthInches : Int
  sortOrder : Int
deriving Repr, DecidableEq

/-- A row of the HeightBand table, mirror of `WidthBand`. -/
structure HeightBand where
  id : String
  heightMm : Int
  heightInches : Int
  sortOrder : Int
deriving Repr, DecidableEq

/-- A row of the PriceBand table. -/
structure PriceBand where
  id : String
  name : String
deriving Repr, DecidableEq

/-- A row of the PriceCell table as fetched with its included
`widthBand` / `heightBand` relations: `widthMm` and `heightMm` are the
physical sizes of the referenced bands (the source reads
`cell.widthBand.widthMm` and `cell.heightBand.heightMm`). -/
structure PriceCell where
  priceBandId : String
  widthBandId : String
  heightBandId : String
  widthMm : Int
  heightMm : Int
  price : ℚ
deriving Repr, DecidableEq

/-- A row of the CustomizationOption table, unique on
`(category, optionId)`. -/
structure CustomizationOption where
  id : String
  category : String
  optionId : String
  name : String
deriving Repr, DecidableEq

/-- A row of the CustomizationPricing table; `widthBandId = none`
denotes a fixed price, `some wb` a width-dependent price. -/
structure CustomizationPricing where
  customizationOptionId : String
  widthBandId : Option String
  price : ℚ
deriving Repr, DecidableEq

/-- A row of the Product table (the fields the pricing engine reads). -/
structure Product where
  id : String
  priceBandId : Option String
deriving Repr, DecidableEq

/-- The read-only catalog data the pricing engine queries. -/
structure Db where
  widthBands : List WidthBand
  heightBands : List HeightBand
  priceBands : List PriceBand
  priceCells : List PriceCell
  customizationOptions : List CustomizationOption
  customizationPricings : List CustomizationPricing
  products : List Product
deriving Repr, DecidableEq

/-- One requested customization: a `(category, optionId)` pair. -/
structure CustomizationSel where
  category : String
  optionId : String
deriving Repr, DecidableEq

/-- The `PricingRequest` interface. -/
structure PricingRequest where
  productId : String
  widthInches : ℚ
  heightInches : ℚ
  customizations : List CustomizationSel
deriving Repr, DecidableEq

/-- One entry of `PricingResponse.customizationPrices`. -/
structure CustomizationLine where
  category : String
  optionId : String
  name : String
  price : ℚ
deriving Repr, DecidableEq

/-- A band as echoed in the response: `{ mm, inches }`. -/
structure BandInfo where
  mm : Int
  inches : Int
deriving Repr, DecidableEq

/-- The `PricingResponse` interface. -/
structure PricingResponse where
  dimensionPrice : ℚ
  customizationPrices : List CustomizationLine
  totalPrice : ℚ
  widthBand : BandInfo
  heightBand : BandInfo
deriving Repr, DecidableEq

/-- Model of `findFirst` with an ascending `orderBy` on an integer key:
the matching row that comes first in ascending key order, i.e. a row of
minimal key (earliest such row on ties). -/
def firstByAsc {α : Type} (key : α → Int) : List α → Option α
  | [] => none
  | x :: xs =>
    match firstByAsc key xs with
    | none => some x
    | some y => if key x ≤ key y then some x else some y

/-- Model of `findFirst` with a descending `orderBy` on an integer key:
a matching row of maximal key (earliest such row on ties). -/
def firstByDesc {α : Type} (key : α → Int) : List α → Option α
  | [] => none
  | x :: xs =>
    match firstByDesc key xs with
    | none => some x
    | some y => if key y ≤ key x then some x else some y

/-- Model of findCeilingWidthBand: the smallest band whose `widthInches` is at
least the ceiling of the requested width; if none, the largest band;
`none` only on an empty catalog. -/
def findCeilingWidthBand (widthBands : List WidthBand) (widthInches : ℚ) :
    Option WidthBand :=
  match firstByAsc (fun b => b.widthInches)
      (widthBands.filter (fun b => decide (⌈widthInches⌉ ≤ b.widthInches))) with
  | some b => some b
  | none => firstByDesc (fun b => b.widthInches) widthBands

/-- Model of findCeilingHeightBand, mirror of `findCeilingWidthBand`. -/
def findCeilingHeightBand (heightBands : List HeightBand) (heightInches : ℚ) :
    Option HeightBand :=
  match firstByAsc (fun b => b.heightInches)
      (heightBands.filter (fun b => decide (⌈heightInches⌉ ≤ b.heightInches))) with
  | some b => some b
  | none => firstByDesc (fun b => b.heightInches) heightBands

/-- The customization-resolution step of `calculateProductPrice`
(source lines 158–191): look the option up by `(category, optionId)`,
fetch its pricing entries whose `widthBandId` is null or equals the
resolved width band, then prefer the width-specific entry and fall
back to the fixed one; `none` when nothing applies. -/
def resolveCustomization (db : Db) (widthBandId : String)
    (c : CustomizationSel) : Option CustomizationLine :=
  match db.customizationOptions.find?
      (fun o => o.category == c.category && o.optionId == c.optionId) with
  | none => none
  | some option =>
    let entries := db.customizationPricings.filter
      (fun p => p.customizationOptionId == option.id &&
        (p.widthBandId == none || p.widthBandId == some widthBandId))
    if 0 < entries.length then
      match (entries.find? (fun p => p.widthBandId == some widthBandId)).orElse
          (fun _ => entries.find? (fun p => p.widthBandId == none)) with
      | some pricing =>
        some { category := option.category, optionId := option.optionId,
               name := option.name, price := pricing.price }
      | none => none
    else none

/-- Model of calculateProductPrice: resolve the product and its price band,
resolve the ceiling bands, look the price cell up, overlay the
customization lines, and add the flat motorization base price of 95
when any requested customization has category "motorization".  The
guard on the source line 125 tests JS truthiness of
`product.priceBandId`, so both a null id and the (falsy) empty-string
id take the no-price-band error path. -/
def calculateProductPrice (db : Db) (request : PricingRequest) :
    Except String PricingResponse :=
  match db.products.find? (fun p => p.id == request.productId) with
  | none => Except.error "Product not found"
  | some product =>
    match product.priceBandId with
    | none => Except.error "Product does not have a price band assigned"
    | some priceBandId =>
      if priceBandId = "" then
        Except.error "Product does not have a price band assigned"
      else
      match db.priceBands.find? (fun b => b.id == priceBandId) with
      | none => Except.error "Product does not have a price band assigned"
      | some _priceBand =>
        match findCeilingWidthBand db.widthBands request.widthInches,
            findCeilingHeightBand db.heightBands request.heightInches with
        | some widthBand, some heightBand =>
          match db.priceCells.find? (fun c =>
              c.priceBandId == priceBandId && c.widthBandId == widthBand.id &&
              c.heightBandId == heightBand.id) with
          | none => Except.error "Price not found for the given dimensions"
          | some priceCell =>
            let dimensionPrice := priceCell.price
            let customizationPrices :=
              request.customizations.filterMap (resolveCustomization db widthBand.id)
            let customizationTotal := (customizationPrices.map (fun c => c.price)).sum
            let hasMotorization :=
              request.customizations.any (fun c => c.category == "motorization")
            let motorizationBasePrice : ℚ := if hasMotorization then 95 else 0
            Except.ok
              { dimensionPrice := dimensionPrice
                customizationPrices := customizationPrices
                totalPrice := dimensionPrice + customizationTotal + motorizationBasePrice
                widthBand := { mm := widthBand.widthMm, inches := widthBand.widthInches }
                heightBand := { mm := heightBand.heightMm, inches := heightBand.heightInches } }
        | _, _ => Except.error "Unable to find appropriate size bands"

/-- The result shape of `validateCartPrice`. -/
structure CartValidation where
  valid : Bool
  calculatedPrice : ℚ
  difference : ℚ
deriving Repr, DecidableEq

/-- Model of validateCartPrice: recompute the quote and compare its total
with the submitted price within the tolerance. -/
def validateCartPrice (db : Db) (request : PricingRequest)
    (submittedPrice : ℚ) (tolerance : ℚ) : Except String CartValidation :=
  match calculateProductPrice db request with
  | Except.error e => Except.error e
  | Except.ok pricing =>
    let difference := |pricing.totalPrice - submittedPrice|
    Except.ok
      { valid := decide (difference ≤ tolerance)
        calculatedPrice := pricing.totalPrice
        difference := difference }

/-- The comparator of `getMinimumPrice` / `getMinimumPricesBatch` as a
strict order: `a` sorts strictly before `b` when its area
`widthMm * heightMm` is smaller, with ties broken by ascending
`widthMm` then ascending `heightMm`. -/
def cellBefore (a b : PriceCell) : Bool :=
  if a.widthMm * a.heightMm ≠ b.widthMm * b.heightMm then
    a.widthMm * a.heightMm < b.widthMm * b.heightMm
  else if a.widthMm ≠ b.widthMm then a.widthMm < b.widthMm
  else a.heightMm < b.heightMm

/-- Stable insertion of a cell into a list sorted by `cellBefore`. -/
def insertCell (x : PriceCell) : List PriceCell → List PriceCell
  | [] => [x]
  | y :: ys => if cellBefore y x then y :: insertCell x ys else x :: y :: ys

/-- The stable ascending sort by the `cellBefore` comparator (the
semantics of a stable array sort with the comparator of the source). -/
def sortCells : List PriceCell → List PriceCell
  | [] => []
  | x :: xs => insertCell x (sortCells xs)

/-- Model of getMinimumPrice: fetch the cells of the band, sort them by
area with the width-then-height tie-break, and return the price of the
first cell;
`none` when the band has no cells. -/
def getMinimumPrice (db : Db) (priceBandId : String) : Option ℚ :=
  let priceCells := db.priceCells.filter (fun c => c.priceBandId == priceBandId)
  if priceCells.length = 0 then none
  else (sortCells priceCells).head?.map (fun c => c.price)

/-- The distinct price-band ids occurring in a cell list, in order of
first occurrence (the key set of the `cellsByBand` grouping map). -/
def groupKeys : List PriceCell → List String
  | [] => []
  | c :: cs =>
    c.priceBandId :: ((groupKeys cs).filter (fun k => k != c.priceBandId))

/-- Model of getMinimumPricesBatch: drop falsy (empty) ids, fetch all cells of
the remaining bands in one go, group them by `priceBandId`, and take
the price of the first sorted cell per group; bands without cells get no
entry.  The result models the returned `Map` as an association list. -/
def getMinimumPricesBatch (db : Db) (priceBandIds : List String) :
    List (String × ℚ) :=
  if priceBandIds.length = 0 then []
  else
    let validPriceBandIds := priceBandIds.filter (fun id => id ≠ "")
    if validPriceBandIds.length = 0 then []
    else
      let priceCells := db.priceCells.filter
        (fun c => validPriceBandIds.contains c.priceBandId)
      (groupKeys priceCells).filterMap (fun k =>
        let cells := priceCells.filter (fun c => c.priceBandId == k)
        match sortCells cells with
        | [] => none
        | c :: _ => some (k, c.price))

/-- The minimality order the spec describes for the "from" price: `a`
weakly precedes `b` when its area is smaller, or areas tie and its
`widthMm` is smaller, or both tie and its `heightMm` is no larger. -/
def cellLexLe (a b : PriceCell) : Prop :=
  a.widthMm * a.heightMm < b.widthMm * b.heightMm ∨
  (a.widthMm * a.heightMm = b.widthMm * b.heightMm ∧
    (a.widthMm < b.widthMm ∨ (a.widthMm = b.widthMm ∧ a.heightMm ≤ b.heightMm)))

/-! ### A sample catalog (the concrete scenario data of the spec) -/

/-- Sample width band: 20in / 500mm. -/
def wb20 : WidthBand := ⟨"w20", 500, 20, 1⟩

/-- Sample width band: 30in / 750mm. -/
def wb30 : WidthBand := ⟨"w30", 750, 30, 2⟩

/-- Sample width band: 39in / 1000mm. -/
def wb39 : WidthBand := ⟨"w39", 1000, 39, 3⟩

/-- Sample width band: 49in / 1250mm. -/
def wb49 : WidthBand := ⟨"w49", 1250, 49, 4⟩

/-- Sample height band: 20in / 500mm. -/
def hb20 : HeightBand := ⟨"h20", 500, 20, 1⟩

/-- Sample height band: 30in / 750mm. -/
def hb30 : HeightBand := ⟨"h30", 750, 30, 2⟩

/-- Sample height band: 39in / 1000mm. -/
def hb39 : HeightBand := ⟨"h39", 1000, 39, 3⟩

/-- Sample height band: 49in / 1250mm. -/
def hb49 : HeightBand := ⟨"h49", 1250, 49, 4⟩

/-- A sample catalog following the spec scenarios: price band "A" with
a 21 cell at the 750mm × 1000mm bands, one customization option
with both a fixed and a width-specific price, one with only a fixed
price, and one whose only entry is for a different width band. -/
def sampleDb : Db :=
  { widthBands := [wb20, wb30, wb39, wb49]
    heightBands := [hb20, hb30, hb39, hb49]
    priceBands := [⟨"A", "Band A"⟩]
    priceCells := [⟨"A", "w30", "h39", 750, 1000, 21⟩,
                   ⟨"A", "w20", "h20", 500, 500, 15⟩,
                   ⟨"A", "w20", "h30", 500, 750, 18⟩]
    customizationOptions := [⟨"opt-head", "headrail", "standard", "Standard Headrail"⟩,
                             ⟨"opt-ctrl", "control", "chain", "Chain Control"⟩,
                             ⟨"opt-mot", "motorization", "remote", "Remote Motor"⟩]
    customizationPricings := [⟨"opt-head", none, 5⟩,
                              ⟨"opt-head", some "w30", 8⟩,
                              ⟨"opt-ctrl", none, 3⟩,
                              ⟨"opt-mot", some "w49", 12⟩]
    products := [⟨"prod1", some "A"⟩] }

/-- A catalog whose price band has the empty string as id, with one
price cell; exercises the falsy-id filter of the batch minimum-price
computation. -/
def emptyIdDb : Db :=
  { widthBands := [wb20]
    heightBands := [hb20]
    priceBands := [⟨"", "Unnamed Band"⟩]
    priceCells := [⟨"", "w20", "h20", 500, 500, 9⟩]
    customizationOptions := []
    customizationPricings := []
    products := [] }

/-- The customization line produced by the sample "headrail/standard"
option at the 750mm width band (width-specific price 8). -/
def headLine : CustomizationLine := ⟨"headrail", "standard", "Standard Headrail", 8⟩

/-- The customization line produced by the sample "control/chain"
option (fixed price 3). -/
def chainLine : CustomizationLine := ⟨"control", "chain", "Chain Control", 3⟩

/-- A request carrying the same resolvable customization twice, with
another customization between the two occurrences. -/
def mixedReq : PricingRequest :=
  ⟨"prod1", 25, 35, [⟨"headrail", "standard"⟩, ⟨"control", "chain"⟩,
    ⟨"headrail", "standard"⟩]⟩

/-- The quote for `mixedReq` on `sampleDb`: three lines in request
order, the width-specific price 8 charged twice (21 + 8 + 3 + 8 = 40). -/
def mixedResp : PricingResponse :=
  ⟨21, [headLine, chainLine, headLine], 40, ⟨750, 30⟩, ⟨1000, 39⟩⟩

/-- A plain sample request: 25in × 35in, no customizations. -/
def plainReq : PricingRequest := ⟨"prod1", 25, 35, []⟩

/-- The quote for `plainReq` on `sampleDb` (21 at the 750mm ×
1000mm cell). -/
def plainResp : PricingResponse := ⟨21, [], 21, ⟨750, 30⟩, ⟨1000, 39⟩⟩

/-- The sample request with one motorization-category customization
whose only pricing entry is for a different width band, so it is
unresolvable at the resolved band. -/
def motorReq : PricingRequest := ⟨"prod1", 25, 35, [⟨"motorization", "remote"⟩]⟩

/-- The quote for `motorReq` on `sampleDb`: no customization line, yet
the flat 95 motorization base price is added (21 + 95 = 116). -/
def motorResp : PricingResponse := ⟨21, [], 116, ⟨750, 30⟩, ⟨1000, 39⟩⟩

/-! ### Lemmas about the ordered `findFirst` models -/

theorem firstByAsc_cons_none {α : Type} {key : α → Int} {x : α} {xs : List α}
    (h : firstByAsc key xs = none) : firstByAsc key (x :: xs) = some x := by
  unfold firstByAsc; rw [h]

theorem firstByAsc_cons_some {α : Type} {key : α → Int} {x y : α} {xs : List α}
    (h : firstByAsc key xs = some y) :
    firstByAsc key (x :: xs) = if key x ≤ key y then some x else some y := by
  unfold firstByAsc; rw [h]

theorem firstByAsc_eq_none {α : Type} (key : α → Int) (l : List α) :
    firstByAsc key l = none ↔ l = [] := by
  cases l with
  | nil => simp [firstByAsc]
  | cons x xs =>
    cases h : firstByAsc key xs with
    | none => rw [firstByAsc_cons_none h]; simp
    | some y => rw [firstByAsc_cons_some h]; split <;> simp

theorem firstByAsc_mem {α : Type} (key : α → Int) :
    ∀ (l : List α) (b : α), firstByAsc key l = some b → b ∈ l := by
  intro l
  induction l with
  | nil => intro b h; simp [firstByAsc] at h
  | cons x xs ih =>
    intro b h
    cases hx : firstByAsc key xs with
    | none =>
      rw [firstByAsc_cons_none hx] at h
      simp at h; simp [h]
    | some y =>
      rw [firstByAsc_cons_some hx] at h
      split at h
      · simp at h; simp [h]
      · simp at h; subst h; exact List.mem_cons_of_mem _ (ih y hx)

theorem firstByAsc_le {α : Type} (key : α → Int) :
    ∀ (l : List α) (b : α), firstByAsc key l = some b → ∀ a ∈ l, key b ≤ key a := by
  intro l
  induction l with
  | nil => intro b h; simp [firstByAsc] at h
  | cons x xs ih =>
    intro b h
    cases hx : firstByAsc key xs with
    | none =>
      rw [firstByAsc_cons_none hx] at h
      simp at h; subst h
      have hnil : xs = [] := (firstByAsc_eq_none key xs).mp hx
      subst hnil; simp
    | some y =>
      rw [firstByAsc_cons_some hx] at h
      split at h
      · simp at h; subst h
        intro a ha
        rcases List.mem_cons.mp ha with rfl | hmem
        · exact le_refl _
        · exact le_trans (by assumption) (ih y hx a hmem)
      · simp at h; subst h
        intro a ha
        rcases List.mem_cons.mp ha with rfl | hmem
        · omega
        · exact ih y hx a hmem

theorem firstByDesc_cons_none {α : Type} {key : α → Int} {x : α} {xs : List α}
    (h : firstByDesc key xs = none) : firstByDesc key (x :: xs) = some x := by
  unfold firstByDesc; rw [h]

theorem firstByDesc_cons_some {α : Type} {key : α → Int} {x y : α} {xs : List α}
    (h : firstByDesc key xs = some y) :
    firstByDesc key (x :: xs) = if key y ≤ key x then some x else some y := by
  unfold firstByDesc; rw [h]

theorem firstByDesc_eq_none {α : Type} (key : α → Int) (l : List α) :
    firstByDesc key l = none ↔ l = [] := by
  cases l with
  | nil => simp [firstByDesc]
  | cons x xs =>
    cases h : firstByDesc key xs with
    | none => rw [firstByDesc_cons_none h]; simp
    | some y => rw [firstByDesc_cons_some h]; split <;> simp

theorem firstByDesc_mem {α : Type} (key : α → Int) :
    ∀ (l : List α) (b : α), firstByDesc key l = some b → b ∈ l := by
  intro l
  induction l with
  | nil => intro b h; simp [firstByDesc] at h
  | cons x xs ih =>
    intro b h
    cases hx : firstByDesc key xs with
    | none =>
      rw [firstByDesc_cons_none hx] at h
      simp at h; simp [h]
    | some y =>
      rw [firstByDesc_cons_some hx] at h
      split at h
      · simp at h; simp [h]
      · simp at h; subst h; exact List.mem_cons_of_mem _ (ih y hx)

theorem firstByDesc_ge {α : Type} (key : α → Int) :
    ∀ (l : List α) (b : α), firstByDesc key l = some b → ∀ a ∈ l, key a ≤ key b := by
  intro l
  induction l with
  | nil => intro b h; simp [firstByDesc] at h
  | cons x xs ih =>
    intro b h
    cases hx : firstByDesc key xs with
    | none =>
      rw [firstByDesc_cons_none hx] at h
      simp at h; subst h
      have hnil : xs = [] := (firstByDesc_eq_none key xs).mp hx
      subst hnil; simp
    | some y =>
      rw [firstByDesc_cons_some hx] at h
      split at h
      · simp at h; subst h
        intro a ha
        rcases List.mem_cons.mp ha with rfl | hmem
        · exact le_refl _
        · exact le_trans (ih y hx a hmem) (by assumption)
      · simp at h; subst h
        intro a ha
        rcases List.mem_cons.mp ha with rfl | hmem
        · omega
        · exact ih y hx a hmem

/-! ### Characterization of the ceiling band resolvers -/

theorem findCeilingWidthBand_cases (cat : List WidthBand) (w : ℚ) (b : WidthBand)
    (h : findCeilingWidthBand cat w = some b) :
    b ∈ cat ∧
    ((⌈w⌉ ≤ b.widthInches ∧
        ∀ a ∈ cat, ⌈w⌉ ≤ a.widthInches → b.widthInches ≤ a.widthInches) ∨
      ((∀ a ∈ cat, a.widthInches < ⌈w⌉) ∧ ∀ a ∈ cat, a.widthInches ≤ b.widthInches)) := by
  unfold findCeilingWidthBand at h
  cases hasc : firstByAsc (fun b => b.widthInches)
      (cat.filter (fun b => decide (⌈w⌉ ≤ b.widthInches))) with
  | some c =>
    rw [hasc] at h
    simp at h; subst h
    have hmem := firstByAsc_mem _ _ _ hasc
    have hfit := (List.mem_filter.mp hmem).2
    have hle := firstByAsc_le _ _ _ hasc
    refine ⟨(List.mem_filter.mp hmem).1, Or.inl ⟨by simpa using hfit, ?_⟩⟩
    intro a ha hafit
    exact hle a (List.mem_filter.mpr ⟨ha, by simpa using hafit⟩)
  | none =>
    rw [hasc] at h
    have hempty := (firstByAsc_eq_none _ _).mp hasc
    have hnofit : ∀ a ∈ cat, a.widthInches < ⌈w⌉ := by
      intro a ha
      by_contra hcon
      have : a ∈ cat.filter (fun b => decide (⌈w⌉ ≤ b.widthInches)) :=
        List.mem_filter.mpr ⟨ha, by simpa using not_lt.mp hcon⟩
      rw [hempty] at this
      exact absurd this (List.not_mem_nil a)
    exact ⟨firstByDesc_mem _ _ _ h, Or.inr ⟨hnofit, firstByDesc_ge _ _ _ h⟩⟩

theorem findCeilingWidthBand_eq_none (cat : List WidthBand) (w : ℚ) :
    findCeilingWidthBand cat w = none ↔ cat = [] := by
  unfold findCeilingWidthBand
  cases hasc : firstByAsc (fun b => b.widthInches)
      (cat.filter (fun b => decide (⌈w⌉ ≤ b.widthInches))) with
  | some c =>
    simp only []
    constructor
    · intro h; simp at h
    · intro h
      subst h
      simp [firstByAsc] at hasc
  | none =>
    simpa using firstByDesc_eq_none (fun b : WidthBand => b.widthInches) cat

theorem findCeilingHeightBand_cases (cat : List HeightBand) (w : ℚ) (b : HeightBand)
    (h : findCeilingHeightBand cat w = some b) :
    b ∈ cat ∧
    ((⌈w⌉ ≤ b.heightInches ∧
        ∀ a ∈ cat, ⌈w⌉ ≤ a.heightInches → b.heightInches ≤ a.heightInches) ∨
      ((∀ a ∈ cat, a.heightInches < ⌈w⌉) ∧ ∀ a ∈ cat, a.heightInches ≤ b.heightInches)) := by
  unfold findCeilingHeightBand at h
  cases hasc : firstByAsc (fun b => b.heightInches)
      (cat.filter (fun b => decide (⌈w⌉ ≤ b.heightInches))) with
  | some c =>
    rw [hasc] at h
    simp at h; subst h
    have hmem := firstByAsc_mem _ _ _ hasc
    have hfit := (List.mem_filter.mp hmem).2
    have hle := firstByAsc_le _ _ _ hasc
    refine ⟨(List.mem_filter.mp hmem).1, Or.inl ⟨by simpa using hfit, ?_⟩⟩
    intro a ha hafit
    exact hle a (List.mem_filter.mpr ⟨ha, by simpa using hafit⟩)
  | none =>
    rw [hasc] at h
    have hempty := (firstByAsc_eq_none _ _).mp hasc
    have hnofit : ∀ a ∈ cat, a.heightInches < ⌈w⌉ := by
      intro a ha
      by_contra hcon
      have : a ∈ cat.filter (fun b => decide (⌈w⌉ ≤ b.heightInches)) :=
        List.mem_filter.mpr ⟨ha, by simpa using not_lt.mp hcon⟩
      rw [hempty] at this
      exact absurd this (List.not_mem_nil a)
    exact ⟨firstByDesc_mem _ _ _ h, Or.inr ⟨hnofit, firstByDesc_ge _ _ _ h⟩⟩

theorem findCeilingHeightBand_eq_none (cat : List HeightBand) (w : ℚ) :
    findCeilingHeightBand cat w = none ↔ cat = [] := by
  unfold findCeilingHeightBand
  cases hasc : firstByAsc (fun b => b.heightInches)
      (cat.filter (fun b => decide (⌈w⌉ ≤ b.heightInches))) with
  | some c =>
    simp only []
    constructor
    · intro h; simp at h
    · intro h
      subst h
      simp [firstByAsc] at hasc
  | none =>
    simpa using firstByDesc_eq_none (fun b : HeightBand => b.heightInches) cat

/-! ### C3: ceiling-then-clamp band resolution -/

/-- C3: for every positive requested width against a non-empty width
band catalog, the resolver returns the band with the smallest
`widthInches` that is at least the ceiling of the request; when no
band is large enough it returns the band with the largest
`widthInches`; it returns `none` exactly when the catalog is empty.
The same holds for heights. -/
theorem ceilingBand_total_min_clamp (wcat : List WidthBand) (hcat : List HeightBand)
    (w ht : ℚ) (hw : 0 < w) (hh : 0 < ht) :
    (wcat ≠ [] →
      ∃ b, findCeilingWidthBand wcat w = some b ∧ b ∈ wcat ∧
        ((∃ a ∈ wcat, ⌈w⌉ ≤ a.widthInches) →
          ⌈w⌉ ≤ b.widthInches ∧
            ∀ a ∈ wcat, ⌈w⌉ ≤ a.widthInches → b.widthInches ≤ a.widthInches) ∧
        ((¬ ∃ a ∈ wcat, ⌈w⌉ ≤ a.widthInches) →
          ∀ a ∈ wcat, a.widthInches ≤ b.widthInches)) ∧
    (findCeilingWidthBand wcat w = none ↔ wcat = []) ∧
    (hcat ≠ [] →
      ∃ b, findCeilingHeightBand hcat ht = some b ∧ b ∈ hcat ∧
        ((∃ a ∈ hcat, ⌈ht⌉ ≤ a.heightInches) →
          ⌈ht⌉ ≤ b.heightInches ∧
            ∀ a ∈ hcat, ⌈ht⌉ ≤ a.heightInches → b.heightInches ≤ a.heightInches) ∧
        ((¬ ∃ a ∈ hcat, ⌈ht⌉ ≤ a.heightInches) →
          ∀ a ∈ hcat, a.heightInches ≤ b.heightInches)) ∧
    (findCeilingHeightBand hcat ht = none ↔ hcat = []) := by
  refine ⟨?_, findCeilingWidthBand_eq_none wcat w, ?_,
    findCeilingHeightBand_eq_none hcat ht⟩
  · intro hne
    cases hr : findCeilingWidthBand wcat w with
    | none => exact absurd ((findCeilingWidthBand_eq_none wcat w).mp hr) hne
    | some b =>
      obtain ⟨hmem, hdisj⟩ := findCeilingWidthBand_cases wcat w b hr
      refine ⟨b, rfl, hmem, ?_, ?_⟩
      · intro hfit
        rcases hdisj with hmin | ⟨hnofit, _⟩
        · exact hmin
        · obtain ⟨a, ha, hafit⟩ := hfit
          have := hnofit a ha
          omega
      · intro hnofit
        rcases hdisj with ⟨hbfit, _⟩ | ⟨_, hmax⟩
        · exact absurd ⟨b, hmem, hbfit⟩ hnofit
        · exact hmax
  · intro hne
    cases hr : findCeilingHeightBand hcat ht with
    | none => exact absurd ((findCeilingHeightBand_eq_none hcat ht).mp hr) hne
    | some b =>
      obtain ⟨hmem, hdisj⟩ := findCeilingHeightBand_cases hcat ht b hr
      refine ⟨b, rfl, hmem, ?_, ?_⟩
      · intro hfit
        rcases hdisj with hmin | ⟨hnofit, _⟩
        · exact hmin
        · obtain ⟨a, ha, hafit⟩ := hfit
          have := hnofit a ha
          omega
      · intro hnofit
        rcases hdisj with ⟨hbfit, _⟩ | ⟨_, hmax⟩
        · exact absurd ⟨b, hmem, hbfit⟩ hnofit
        · exact hmax

/-- Witness for C3: at the sample catalog, a 500-inch request resolves
to some band even though the largest band is 49in, and a 25-inch
request resolves to some band; obtained by applying the claim theorem
at concrete inputs. -/
theorem ceilingBand_total_min_clamp_witness :
    (∃ b, findCeilingWidthBand sampleDb.widthBands 500 = some b) ∧
    (∃ b, findCeilingHeightBand sampleDb.heightBands 35 = some b) := by
  obtain ⟨hwpart, -, hhpart, -⟩ :=
    ceilingBand_total_min_clamp sampleDb.widthBands sampleDb.heightBands 500 35
      (by with_unfolding_all decide) (by with_unfolding_all decide)
  obtain ⟨b, hb, -⟩ := hwpart (by with_unfolding_all decide)
  obtain ⟨b2, hb2, -⟩ := hhpart (by with_unfolding_all decide)
  exact ⟨⟨b, hb⟩, ⟨b2, hb2⟩⟩

/-! ### C9: monotonicity of the width resolver -/

/-- C9: for positive widths `w1 < w2` against the same non-empty
catalog, both resolve, and the band resolved for `w1` has
`widthInches` at most that of the band resolved for `w2`. -/
theorem ceilingWidthBand_monotone (cat : List WidthBand) (w1 w2 : ℚ)
    (h0 : 0 < w1) (h12 : w1 < w2) (hne : cat ≠ []) :
    ∃ b1 b2, findCeilingWidthBand cat w1 = some b1 ∧
      findCeilingWidthBand cat w2 = some b2 ∧
      b1.widthInches ≤ b2.widthInches := by
  have hceil : ⌈w1⌉ ≤ ⌈w2⌉ := Int.ceil_le_ceil (le_of_lt h12)
  cases hr1 : findCeilingWidthBand cat w1 with
  | none => exact absurd ((findCeilingWidthBand_eq_none cat w1).mp hr1) hne
  | some b1 =>
    cases hr2 : findCeilingWidthBand cat w2 with
    | none => exact absurd ((findCeilingWidthBand_eq_none cat w2).mp hr2) hne
    | some b2 =>
      refine ⟨b1, b2, rfl, rfl, ?_⟩
      obtain ⟨hmem1, hdisj1⟩ := findCeilingWidthBand_cases cat w1 b1 hr1
      obtain ⟨hmem2, hdisj2⟩ := findCeilingWidthBand_cases cat w2 b2 hr2
      rcases hdisj2 with ⟨hfit2, _⟩ | ⟨_, hmax2⟩
      · rcases hdisj1 with ⟨_, hmin1⟩ | ⟨hnofit1, _⟩
        · exact hmin1 b2 hmem2 (le_trans hceil hfit2)
        · have := hnofit1 b2 hmem2
          omega
      · exact hmax2 b1 hmem1

/-- Witness for C9: widths 25 < 37 on the sample catalog resolve to
bands of non-decreasing `widthInches`; obtained by applying the claim
theorem at concrete inputs. -/
theorem ceilingWidthBand_monotone_witness :
    ∃ b1 b2, findCeilingWidthBand sampleDb.widthBands 25 = some b1 ∧
      findCeilingWidthBand sampleDb.widthBands 37 = some b2 ∧
      b1.widthInches ≤ b2.widthInches :=
  ceilingWidthBand_monotone sampleDb.widthBands 25 37
    (by with_unfolding_all decide) (by with_unfolding_all decide)
    (by with_unfolding_all decide)

/-! ### Evaluation and inversion of `calculateProductPrice` -/

theorem calculateProductPrice_eval (db : Db) (req : PricingRequest)
    {product : Product} {priceBandId : String} {pb : PriceBand}
    {wb : WidthBand} {hb : HeightBand} {cell : PriceCell}
    (hprod : db.products.find? (fun p => p.id == req.productId) = some product)
    (hpbId : product.priceBandId = some priceBandId)
    (hpbne : priceBandId ≠ "")
    (hpb : db.priceBands.find? (fun b => b.id == priceBandId) = some pb)
    (hwb : findCeilingWidthBand db.widthBands req.widthInches = some wb)
    (hhb : findCeilingHeightBand db.heightBands req.heightInches = some hb)
    (hcell : db.priceCells.find? (fun c => c.priceBandId == priceBandId &&
        c.widthBandId == wb.id && c.heightBandId == hb.id) = some cell) :
    calculateProductPrice db req = Except.ok
      { dimensionPrice := cell.price
        customizationPrices := req.customizations.filterMap (resolveCustomization db wb.id)
        totalPrice := cell.price +
          ((req.customizations.filterMap (resolveCustomization db wb.id)).map
            (fun c => c.price)).sum +
          (if req.customizations.any (fun c => c.category == "motorization")
            then (95:ℚ) else 0)
        widthBand := ⟨wb.widthMm, wb.widthInches⟩
        heightBand := ⟨hb.heightMm, hb.heightInches⟩ } := by
  simp only [calculateProductPrice, hprod, hpbId, if_neg hpbne, hpb, hwb, hhb, hcell]

theorem calculateProductPrice_ok_inv (db : Db) (req : PricingRequest)
    (r : PricingResponse) (h : calculateProductPrice db req = Except.ok r) :
    ∃ product priceBandId pb wb hb cell,
      db.products.find? (fun p => p.id == req.productId) = some product ∧
      product.priceBandId = some priceBandId ∧
      priceBandId ≠ "" ∧
      db.priceBands.find? (fun b => b.id == priceBandId) = some pb ∧
      findCeilingWidthBand db.widthBands req.widthInches = some wb ∧
      findCeilingHeightBand db.heightBands req.heightInches = some hb ∧
      db.priceCells.find? (fun c => c.priceBandId == priceBandId &&
        c.widthBandId == wb.id && c.heightBandId == hb.id) = some cell ∧
      r = { dimensionPrice := cell.price
            customizationPrices :=
              req.customizations.filterMap (resolveCustomization db wb.id)
            totalPrice := cell.price +
              ((req.customizations.filterMap (resolveCustomization db wb.id)).map
                (fun c => c.price)).sum +
              (if req.customizations.any (fun c => c.category == "motorization")
                then (95:ℚ) else 0)
            widthBand := ⟨wb.widthMm, wb.widthInches⟩
            heightBand := ⟨hb.heightMm, hb.heightInches⟩ } := by
  unfold calculateProductPrice at h
  repeat' split at h
  all_goals simp at h
  rename_i prodOpt product hprod pbIdOpt priceBandId hpbId hpbne pbOpt pb hpb wbOpt
    hbOpt wb hb hwb hhb cellOpt cell hcell
  refine ⟨product, priceBandId, pb, wb, hb, cell, hprod, hpbId, hpbne, hpb, hwb, hhb,
    hcell, ?_⟩
  subst h
  simp [List.any_eq_true]

/-! ### C1: composition of the total price -/

/-- C1 as stated is false on the code: at the sample catalog, a quote
with one motorization-category customization succeeds while its
`totalPrice` differs from the resolved cell price plus the sum of the
returned customization lines (the code adds a flat 95 motorization
base price). -/
theorem totalPrice_sum_counterexample :
    (calculateProductPrice sampleDb motorReq).toOption.map
      (fun r => decide (r.totalPrice = r.dimensionPrice +
        (r.customizationPrices.map (fun c => c.price)).sum)) = some false := by
  with_unfolding_all decide

/-- C1 amended: the returned `totalPrice` equals the resolved cell
price plus the sum of the returned customization line prices plus a
flat 95 motorization base price added exactly when some requested
customization has category "motorization". -/
theorem totalPrice_composition (db : Db) (req : PricingRequest)
    (r : PricingResponse) (h : calculateProductPrice db req = Except.ok r) :
    r.totalPrice = r.dimensionPrice +
      (r.customizationPrices.map (fun c => c.price)).sum +
      (if req.customizations.any (fun c => c.category == "motorization")
        then (95:ℚ) else 0) := by
  obtain ⟨product, priceBandId, pb, wb, hb, cell, -, -, -, -, -, -, -, hr⟩ :=
    calculateProductPrice_ok_inv db req r h
  subst hr
  simp

/-- Witness for C1 (amended): the decomposition instantiated at the
sample catalog and the motorization request. -/
theorem totalPrice_composition_witness :
    motorResp.totalPrice = motorResp.dimensionPrice +
      (motorResp.customizationPrices.map (fun c => c.price)).sum +
      (if motorReq.customizations.any (fun c => c.category == "motorization")
        then (95:ℚ) else 0) :=
  totalPrice_composition sampleDb motorReq motorResp (by with_unfolding_all decide)

/-! ### C2: the cart-price validator -/

/-- C2: whenever the quote for the request succeeds, `validateCartPrice`
returns `valid = true` exactly when the absolute difference between the
recomputed total and the submitted price is at most the tolerance, and
it returns that total as `calculatedPrice` and that absolute difference
as `difference`. -/
theorem validateCartPrice_correct (db : Db) (req : PricingRequest)
    (submittedPrice tolerance : ℚ) (p : PricingResponse)
    (h : calculateProductPrice db req = Except.ok p) :
    ∃ v, validateCartPrice db req submittedPrice tolerance = Except.ok v ∧
      (v.valid = true ↔ |p.totalPrice - submittedPrice| ≤ tolerance) ∧
      v.calculatedPrice = p.totalPrice ∧
      v.difference = |p.totalPrice - submittedPrice| := by
  unfold validateCartPrice
  rw [h]
  exact ⟨_, rfl, by simp, rfl, rfl⟩

/-- Witness for C2: the validator at the sample quote with submitted
price 25 and tolerance 1. -/
theorem validateCartPrice_correct_witness :
    ∃ v, validateCartPrice sampleDb plainReq 25 1 = Except.ok v ∧
      (v.valid = true ↔ |plainResp.totalPrice - 25| ≤ 1) ∧
      v.calculatedPrice = plainResp.totalPrice ∧
      v.difference = |plainResp.totalPrice - 25| :=
  validateCartPrice_correct sampleDb plainReq 25 1 plainResp
    (by with_unfolding_all decide)

/-! ### C8: missing price cell is a distinct hard error -/

/-- C8: when the product resolves to a price band and the size bands
resolve but no price cell exists at the resolved triple, the quote
returns the dedicated price-cell-missing error (so it never returns a
price), and that error is distinct from every other error message the
quote can produce. -/
theorem missingPriceCell_error (db : Db) (req : PricingRequest)
    (product : Product) (priceBandId : String) (pb : PriceBand)
    (wb : WidthBand) (hb : HeightBand)
    (hprod : db.products.find? (fun p => p.id == req.productId) = some product)
    (hpbId : product.priceBandId = some priceBandId)
    (hpbne : priceBandId ≠ "")
    (hpb : db.priceBands.find? (fun b => b.id == priceBandId) = some pb)
    (hwb : findCeilingWidthBand db.widthBands req.widthInches = some wb)
    (hhb : findCeilingHeightBand db.heightBands req.heightInches = some hb)
    (hcell : db.priceCells.find? (fun c => c.priceBandId == priceBandId &&
        c.widthBandId == wb.id && c.heightBandId == hb.id) = none) :
    calculateProductPrice db req =
      Except.error "Price not found for the given dimensions" ∧
    "Price not found for the given dimensions" ≠ "Product not found" ∧
    "Price not found for the given dimensions" ≠
      "Product does not have a price band assigned" ∧
    "Price not found for the given dimensions" ≠
      "Unable to find appropriate size bands" := by
  refine ⟨?_, by decide, by decide, by decide⟩
  simp only [calculateProductPrice, hprod, hpbId, if_neg hpbne, hpb, hwb, hhb, hcell]

/-- Witness for C8: a catalog identical to the sample one but with no
price cells at all; the quote fails with the price-cell-missing
error. -/
theorem missingPriceCell_error_witness :
    calculateProductPrice { sampleDb with priceCells := [] } plainReq =
      Except.error "Price not found for the given dimensions" ∧
    "Price not found for the given dimensions" ≠ "Product not found" ∧
    "Price not found for the given dimensions" ≠
      "Product does not have a price band assigned" ∧
    "Price not found for the given dimensions" ≠
      "Unable to find appropriate size bands" :=
  missingPriceCell_error { sampleDb with priceCells := [] } plainReq
    ⟨"prod1", some "A"⟩ "A" ⟨"A", "Band A"⟩ wb30 hb39
    (by with_unfolding_all decide) (by with_unfolding_all decide)
    (by with_unfolding_all decide) (by with_unfolding_all decide)
    (by with_unfolding_all decide) (by with_unfolding_all decide)
    (by with_unfolding_all decide)

/-! ### C6: customization price precedence -/

/-- C6: with a width-specific entry present the resolver returns its
price even when a fixed entry also exists (first conjunct); with only
a fixed entry it returns the fixed price (second conjunct); with no
applicable entry the customization is unresolved (third conjunct). -/
theorem customizationPrecedence (db : Db) (wbId : String)
    (c1 c2 c3 : CustomizationSel) (o1 o2 o3 : CustomizationOption)
    (e1 f1 f2 : CustomizationPricing)
    (h1 : db.customizationOptions.find?
        (fun o => o.category == c1.category && o.optionId == c1.optionId) = some o1)
    (he1 : e1 ∈ db.customizationPricings ∧ e1.customizationOptionId = o1.id ∧
      e1.widthBandId = some wbId)
    (he1u : ∀ p ∈ db.customizationPricings, p.customizationOptionId = o1.id →
      p.widthBandId = some wbId → p = e1)
    (hf1 : f1 ∈ db.customizationPricings ∧ f1.customizationOptionId = o1.id ∧
      f1.widthBandId = none)
    (h2 : db.customizationOptions.find?
        (fun o => o.category == c2.category && o.optionId == c2.optionId) = some o2)
    (hf2 : f2 ∈ db.customizationPricings ∧ f2.customizationOptionId = o2.id ∧
      f2.widthBandId = none)
    (hf2u : ∀ p ∈ db.customizationPricings, p.customizationOptionId = o2.id →
      p.widthBandId = none → p = f2)
    (h2no : ∀ p ∈ db.customizationPricings, p.customizationOptionId = o2.id →
      p.widthBandId ≠ some wbId)
    (h3 : db.customizationOptions.find?
        (fun o => o.category == c3.category && o.optionId == c3.optionId) = some o3)
    (h3no : ∀ p ∈ db.customizationPricings, p.customizationOptionId = o3.id →
      p.widthBandId ≠ none ∧ p.widthBandId ≠ some wbId) :
    resolveCustomization db wbId c1 =
      some ⟨o1.category, o1.optionId, o1.name, e1.price⟩ ∧
    resolveCustomization db wbId c2 =
      some ⟨o2.category, o2.optionId, o2.name, f2.price⟩ ∧
    resolveCustomization db wbId c3 = none := by
  obtain ⟨he1m, he1o, he1w⟩ := he1
  obtain ⟨hf2m, hf2o, hf2w⟩ := hf2
  refine ⟨?_, ?_, ?_⟩
  · simp only [resolveCustomization, h1]
    have he1mem : e1 ∈ db.customizationPricings.filter
        (fun p => p.customizationOptionId == o1.id &&
          (p.widthBandId == none || p.widthBandId == some wbId)) :=
      List.mem_filter.mpr ⟨he1m, by simp [he1o, he1w]⟩
    rw [if_pos (List.length_pos.mpr (List.ne_nil_of_mem he1mem))]
    have hfind : (db.customizationPricings.filter
        (fun p => p.customizationOptionId == o1.id &&
          (p.widthBandId == none || p.widthBandId == some wbId))).find?
        (fun p => p.widthBandId == some wbId) = some e1 := by
      cases hfd : (db.customizationPricings.filter
          (fun p => p.customizationOptionId == o1.id &&
            (p.widthBandId == none || p.widthBandId == some wbId))).find?
          (fun p => p.widthBandId == some wbId) with
      | none =>
        have := (List.find?_eq_none.mp hfd) e1 he1mem
        simp [he1w] at this
      | some q =>
        have hq := List.find?_some hfd
        have hqmem := List.mem_of_find?_eq_some hfd
        have hqf := List.mem_filter.mp hqmem
        have hqo : q.customizationOptionId = o1.id := by
          have := hqf.2; simp at this; exact this.1
        have hqw : q.widthBandId = some wbId := by simpa using hq
        rw [he1u q hqf.1 hqo hqw]
    rw [hfind]
    simp [Option.orElse]
  · simp only [resolveCustomization, h2]
    have hf2mem : f2 ∈ db.customizationPricings.filter
        (fun p => p.customizationOptionId == o2.id &&
          (p.widthBandId == none || p.widthBandId == some wbId)) :=
      List.mem_filter.mpr ⟨hf2m, by simp [hf2o, hf2w]⟩
    rw [if_pos (List.length_pos.mpr (List.ne_nil_of_mem hf2mem))]
    have hnone : (db.customizationPricings.filter
        (fun p => p.customizationOptionId == o2.id &&
          (p.widthBandId == none || p.widthBandId == some wbId))).find?
        (fun p => p.widthBandId == some wbId) = none := by
      rw [List.find?_eq_none]
      intro q hqmem
      have hqf := List.mem_filter.mp hqmem
      have hqo : q.customizationOptionId = o2.id := by
        have := hqf.2; simp at this; exact this.1
      simp [h2no q hqf.1 hqo]
    have hfix : (db.customizationPricings.filter
        (fun p => p.customizationOptionId == o2.id &&
          (p.widthBandId == none || p.widthBandId == some wbId))).find?
        (fun p => p.widthBandId == none) = some f2 := by
      cases hfd : (db.customizationPricings.filter
          (fun p => p.customizationOptionId == o2.id &&
            (p.widthBandId == none || p.widthBandId == some wbId))).find?
          (fun p => p.widthBandId == none) with
      | none =>
        have := (List.find?_eq_none.mp hfd) f2 hf2mem
        simp [hf2w] at this
      | some q =>
        have hq := List.find?_some hfd
        have hqmem := List.mem_of_find?_eq_some hfd
        have hqf := List.mem_filter.mp hqmem
        have hqo : q.customizationOptionId = o2.id := by
          have := hqf.2; simp at this; exact this.1
        have hqw : q.widthBandId = none := by simpa using hq
        rw [hf2u q hqf.1 hqo hqw]
    rw [hnone, hfix]
    simp [Option.orElse]
  · simp only [resolveCustomization, h3]
    have hempty : db.customizationPricings.filter
        (fun p => p.customizationOptionId == o3.id &&
          (p.widthBandId == none || p.widthBandId == some wbId)) = [] := by
      rw [List.filter_eq_nil]
      intro q hqmem
      by_cases hqo : q.customizationOptionId = o3.id
      · obtain ⟨hn, hw⟩ := h3no q hqmem hqo
        simp [hqo, hn, hw]
      · simp [hqo]
    rw [hempty]
    simp

/-- Witness for C6: the three sample options (both entries / fixed
only / inapplicable width-specific only) at the 750mm width band. -/
theorem customizationPrecedence_witness :
    resolveCustomization sampleDb "w30" ⟨"headrail", "standard"⟩ =
      some ⟨"headrail", "standard", "Standard Headrail", 8⟩ ∧
    resolveCustomization sampleDb "w30" ⟨"control", "chain"⟩ =
      some ⟨"control", "chain", "Chain Control", 3⟩ ∧
    resolveCustomization sampleDb "w30" ⟨"motorization", "remote"⟩ = none :=
  customizationPrecedence sampleDb "w30"
    ⟨"headrail", "standard"⟩ ⟨"control", "chain"⟩ ⟨"motorization", "remote"⟩
    ⟨"opt-head", "headrail", "standard", "Standard Headrail"⟩
    ⟨"opt-ctrl", "control", "chain", "Chain Control"⟩
    ⟨"opt-mot", "motorization", "remote", "Remote Motor"⟩
    ⟨"opt-head", some "w30", 8⟩ ⟨"opt-head", none, 5⟩ ⟨"opt-ctrl", none, 3⟩
    (by with_unfolding_all decide) (by with_unfolding_all decide)
    (by with_unfolding_all decide) (by with_unfolding_all decide)
    (by with_unfolding_all decide) (by with_unfolding_all decide)
    (by with_unfolding_all decide) (by with_unfolding_all decide)
    (by with_unfolding_all decide) (by with_unfolding_all decide)

/-! ### C7: unresolvable customizations are skipped, except for the
motorization surcharge -/

/-- C7 as stated is false on the code: a motorization-category
customization with no applicable pricing entry is skipped (no line,
no line price) yet still changes the total, because the flat 95
motorization base price keys on the requested category alone. -/
theorem skippedCustomization_counterexample :
    resolveCustomization sampleDb "w30" ⟨"motorization", "remote"⟩ = none ∧
    (calculateProductPrice sampleDb motorReq).toOption.map
      (fun r => r.customizationPrices) = some [] ∧
    (calculateProductPrice sampleDb motorReq).toOption.map
      (fun r => r.totalPrice) = some 116 ∧
    (calculateProductPrice sampleDb plainReq).toOption.map
      (fun r => r.totalPrice) = some 21 ∧
    (116 : ℚ) ≠ 21 := by
  with_unfolding_all decide

theorem motor_if_split (m pA poA : Bool) (base : ℚ) :
    base + (if (pA || (m || poA)) = true then (95:ℚ) else 0) =
    (base + (if (pA || poA) = true then (95:ℚ) else 0)) +
      (if (m && !(pA || poA)) = true then (95:ℚ) else 0) := by
  cases m <;> cases pA <;> cases poA <;> simp <;> ring

/-- C7 amended: an unresolvable customization never makes the quote
fail and contributes no line, and the total matches the quote with it
removed except that, when it is the only motorization-category entry
of the request, the total still carries the flat 95 motorization base
price. -/
theorem skippedCustomization_skipped (db : Db) (req : PricingRequest)
    (pre post : List CustomizationSel) (c : CustomizationSel) (wb : WidthBand)
    (r2 : PricingResponse)
    (hwb : findCeilingWidthBand db.widthBands req.widthInches = some wb)
    (hc : resolveCustomization db wb.id c = none)
    (hreq : req.customizations = pre ++ c :: post)
    (h2 : calculateProductPrice db { req with customizations := pre ++ post } =
      Except.ok r2) :
    ∃ r1, calculateProductPrice db req = Except.ok r1 ∧
      r1.customizationPrices = r2.customizationPrices ∧
      r1.totalPrice = r2.totalPrice +
        (if c.category == "motorization" &&
            !((pre ++ post).any (fun x => x.category == "motorization"))
          then (95:ℚ) else 0) := by
  obtain ⟨product, priceBandId, pb, wb2, hb2, cell, hprod, hpbId, hpbne, hpb, hwb2,
    hhb2, hcell, hr2⟩ := calculateProductPrice_ok_inv db _ r2 h2
  simp only at hprod hwb2 hhb2 hcell
  rw [hwb] at hwb2
  injection hwb2 with hwbeq
  subst hwbeq
  have h1 := calculateProductPrice_eval db req hprod hpbId hpbne hpb hwb hhb2 hcell
  refine ⟨_, h1, ?_, ?_⟩
  · subst hr2
    simp [hreq, List.filterMap_append, hc]
  · subst hr2
    simp only [hreq, List.filterMap_append, List.any_append, hc,
      List.filterMap_cons, List.any_cons]
    exact motor_if_split _ _ _ _

/-- Witness for C7 (amended): removing the unresolvable motorization
customization from the sample request changes the total by exactly the
95 surcharge. -/
theorem skippedCustomization_skipped_witness :
    ∃ r1, calculateProductPrice sampleDb motorReq = Except.ok r1 ∧
      r1.customizationPrices = plainResp.customizationPrices ∧
      r1.totalPrice = plainResp.totalPrice +
        (if ("motorization" : String) == "motorization" &&
            !(([] ++ [] : List CustomizationSel).any
              (fun x => x.category == "motorization"))
          then (95:ℚ) else 0) :=
  skippedCustomization_skipped sampleDb motorReq [] [] ⟨"motorization", "remote"⟩
    wb30 plainResp (by with_unfolding_all decide) (by with_unfolding_all decide)
    (by with_unfolding_all decide) (by with_unfolding_all decide)

/-! ### C10: duplicate customizations are charged once per occurrence -/

theorem resolveCustomization_fields (db : Db) (wbId : String)
    (x : CustomizationSel) (l : CustomizationLine)
    (h : resolveCustomization db wbId x = some l) :
    l.category = x.category ∧ l.optionId = x.optionId := by
  unfold resolveCustomization at h
  repeat' split at h
  all_goals simp at h
  rename_i opt o hfo
  obtain ⟨-, hm⟩ := h
  have hpred := List.find?_some hfo
  simp at hpred
  split at hm
  · simp at hm
    subst hm
    exact ⟨hpred.1, hpred.2⟩
  · cases hm

theorem count_filterMap_of_inj {α β : Type} [DecidableEq α] [DecidableEq β]
    (f : α → Option β) (c : α) (b : β) (hfc : f c = some b)
    (hinj : ∀ x, f x = some b → x = c) :
    ∀ l : List α, (l.filterMap f).count b = l.count c := by
  intro l
  induction l with
  | nil => simp
  | cons x xs ih =>
    cases hfx : f x with
    | none =>
      have hxc : x ≠ c := fun he => by rw [he, hfc] at hfx; cases hfx
      rw [List.filterMap_cons_none hfx, ih, List.count_cons_of_ne (Ne.symm hxc)]
    | some y =>
      rw [List.filterMap_cons_some hfx]
      by_cases hyb : y = b
      · subst hyb
        have hxc : x = c := hinj x hfx
        subst hxc
        rw [List.count_cons_self, List.count_cons_self, ih]
      · have hxc : x ≠ c := by
          intro he
          rw [he, hfc] at hfx
          injection hfx with hbe
          exact hyb hbe.symm
        rw [List.count_cons_of_ne (fun he => hyb he.symm),
          List.count_cons_of_ne (Ne.symm hxc), ih]

/-- C10: the quote maps the requested customization list element-wise
in order without deduplicating: the lines are the in-order resolution
of the request, a resolvable pair occurring n times in the request
yields exactly n copies of its line, those copies contribute n times
its price to the summed line prices, and the total adds that sum. -/
theorem duplicateCustomizations_counted (db : Db) (req : PricingRequest)
    (wb : WidthBand) (c : CustomizationSel) (line : CustomizationLine)
    (r : PricingResponse)
    (hwb : findCeilingWidthBand db.widthBands req.widthInches = some wb)
    (hres : resolveCustomization db wb.id c = some line)
    (h : calculateProductPrice db req = Except.ok r) :
    r.customizationPrices =
      req.customizations.filterMap (resolveCustomization db wb.id) ∧
    r.customizationPrices.count line = req.customizations.count c ∧
    ((r.customizationPrices.filter (fun l => l == line)).map
      (fun l => l.price)).sum = (req.customizations.count c : ℚ) * line.price ∧
    r.totalPrice = r.dimensionPrice +
      (r.customizationPrices.map (fun l => l.price)).sum +
      (if req.customizations.any (fun x => x.category == "motorization")
        then (95:ℚ) else 0) := by
  obtain ⟨product, priceBandId, pb, wb2, hb2, cell, hprod, hpbId, hpbne, hpb, hwb2,
    hhb2, hcell, hr⟩ := calculateProductPrice_ok_inv db req r h
  rw [hwb] at hwb2
  injection hwb2 with hwbeq
  subst hwbeq
  have hinj : ∀ x, resolveCustomization db wb.id x = some line → x = c := by
    intro x hx
    obtain ⟨hxc, hxo⟩ := resolveCustomization_fields db wb.id x line hx
    obtain ⟨hcc, hco⟩ := resolveCustomization_fields db wb.id c line hres
    cases x; cases c
    simp_all
  have hcount : (req.customizations.filterMap
      (resolveCustomization db wb.id)).count line = req.customizations.count c :=
    count_filterMap_of_inj _ c line hres hinj req.customizations
  subst hr
  refine ⟨rfl, hcount, ?_, by simp [List.any_eq_true]⟩
  rw [List.filter_beq, List.map_replicate, List.sum_replicate, nsmul_eq_mul, hcount]

/-- Witness for C10: the sample request with the headrail/standard
pair twice around a control/chain entry yields the three lines in
order, two copies of the 8-priced line summing to 16, and total
21 + (8 + 3 + 8). -/
theorem duplicateCustomizations_counted_witness :
    mixedResp.customizationPrices =
      mixedReq.customizations.filterMap (resolveCustomization sampleDb wb30.id) ∧
    mixedResp.customizationPrices.count headLine =
      mixedReq.customizations.count ⟨"headrail", "standard"⟩ ∧
    ((mixedResp.customizationPrices.filter (fun l => l == headLine)).map
      (fun l => l.price)).sum =
      (mixedReq.customizations.count
        (⟨"headrail", "standard"⟩ : CustomizationSel) : ℚ) * headLine.price ∧
    mixedResp.totalPrice = mixedResp.dimensionPrice +
      (mixedResp.customizationPrices.map (fun l => l.price)).sum +
      (if mixedReq.customizations.any (fun x => x.category == "motorization")
        then (95:ℚ) else 0) :=
  duplicateCustomizations_counted sampleDb mixedReq wb30
    ⟨"headrail", "standard"⟩ headLine mixedResp
    (by with_unfolding_all decide) (by with_unfolding_all decide)
    (by with_unfolding_all decide)

/-! ### C4: the single-band minimum price -/

theorem boolLex_asymm (A B w1 w2 u1 u2 : Int)
    (h : (if A ≠ B then decide (A < B)
      else if w1 ≠ w2 then decide (w1 < w2) else decide (u1 < u2)) = true) :
    (if B ≠ A then decide (B < A)
      else if w2 ≠ w1 then decide (w2 < w1) else decide (u2 < u1)) = false := by
  split_ifs at h ⊢ <;> simp_all <;> omega

theorem boolLex_negtrans (A B C w1 w2 w3 u1 u2 u3 : Int)
    (h1 : (if A ≠ B then decide (A < B)
      else if w1 ≠ w2 then decide (w1 < w2) else decide (u1 < u2)) = false)
    (h2 : (if B ≠ C then decide (B < C)
      else if w2 ≠ w3 then decide (w2 < w3) else decide (u2 < u3)) = false) :
    (if A ≠ C then decide (A < C)
      else if w1 ≠ w3 then decide (w1 < w3) else decide (u1 < u3)) = false := by
  split_ifs at h1 h2 ⊢ <;> simp_all <;> omega

theorem cellBefore_irrefl (a : PriceCell) : cellBefore a a = false := by
  simp [cellBefore]

theorem cellBefore_asymm (a b : PriceCell) (h : cellBefore a b = true) :
    cellBefore b a = false := by
  unfold cellBefore at h ⊢
  exact boolLex_asymm _ _ _ _ _ _ h

theorem cellBefore_negtrans (a b c : PriceCell) (h1 : cellBefore a b = false)
    (h2 : cellBefore b c = false) : cellBefore a c = false := by
  unfold cellBefore at h1 h2 ⊢
  exact boolLex_negtrans _ _ _ _ _ _ _ _ _ h1 h2

theorem cellBefore_false_iff_lexLe (a b : PriceCell) :
    cellBefore b a = false ↔ cellLexLe a b := by
  unfold cellBefore cellLexLe
  generalize a.widthMm * a.heightMm = A
  generalize b.widthMm * b.heightMm = B
  split_ifs <;> simp_all <;> omega

theorem insertCell_ne_nil (x : PriceCell) (l : List PriceCell) :
    insertCell x l ≠ [] := by
  cases l with
  | nil => simp [insertCell]
  | cons y ys => unfold insertCell; split <;> simp

theorem sortCells_eq_nil (l : List PriceCell) : sortCells l = [] ↔ l = [] := by
  cases l with
  | nil => simp [sortCells]
  | cons x xs =>
    unfold sortCells
    simp [insertCell_ne_nil]

theorem sortCells_head_min :
    ∀ (l : List PriceCell) (c : PriceCell), (sortCells l).head? = some c →
      c ∈ l ∧ ∀ d ∈ l, cellBefore d c = false := by
  intro l
  induction l with
  | nil => intro c h; simp [sortCells] at h
  | cons x xs ih =>
    intro c h
    unfold sortCells at h
    cases hs : sortCells xs with
    | nil =>
      have hxs : xs = [] := (sortCells_eq_nil xs).mp hs
      rw [hs] at h
      simp [insertCell] at h
      subst hxs
      subst h
      exact ⟨List.mem_singleton.mpr rfl, by
        intro d hd
        rw [List.mem_singleton.mp hd]
        exact cellBefore_irrefl _⟩
    | cons y ys =>
      obtain ⟨hymem, hymin⟩ := ih y (by rw [hs]; rfl)
      rw [hs] at h
      unfold insertCell at h
      split at h
      · simp at h
        subst h
        refine ⟨List.mem_cons_of_mem x hymem, ?_⟩
        intro d hd
        rcases List.mem_cons.mp hd with rfl | hdm
        · exact cellBefore_asymm _ _ (by assumption)
        · exact hymin d hdm
      · simp at h
        subst h
        refine ⟨List.mem_cons_self x xs, ?_⟩
        intro d hd
        rcases List.mem_cons.mp hd with rfl | hdm
        · exact cellBefore_irrefl d
        · exact cellBefore_negtrans d y x (hymin d hdm) (by
            rename_i hnyx
            exact Bool.of_not_eq_true hnyx)

/-- C4: the single-band minimum price is `none` exactly when the band
has no cells, and otherwise it is the price of a cell of the band that
weakly precedes every cell of the band in the area-then-width-then-
height order. -/
theorem minimumPrice_spec (db : Db) (priceBandId : String) :
    (getMinimumPrice db priceBandId = none ↔
      db.priceCells.filter (fun c => c.priceBandId == priceBandId) = []) ∧
    ∀ p, getMinimumPrice db priceBandId = some p →
      ∃ c ∈ db.priceCells.filter (fun c => c.priceBandId == priceBandId),
        c.price = p ∧
        ∀ d ∈ db.priceCells.filter (fun c => c.priceBandId == priceBandId),
          cellLexLe c d := by
  simp only [getMinimumPrice]
  constructor
  · split
    case isTrue h => simp [List.length_eq_zero.mp h]
    case isFalse h =>
      have hne : db.priceCells.filter (fun c => c.priceBandId == priceBandId) ≠ [] := by
        intro hcon
        exact h (by simp [hcon])
      have hsne : sortCells (db.priceCells.filter
          (fun c => c.priceBandId == priceBandId)) ≠ [] := by
        intro hcon
        exact hne ((sortCells_eq_nil _).mp hcon)
      cases hs : sortCells (db.priceCells.filter
          (fun c => c.priceBandId == priceBandId)) with
      | nil => exact absurd hs hsne
      | cons y ys => simp [hs, hne]
  · intro p hp
    split at hp
    case isTrue h => simp at hp
    case isFalse h =>
      obtain ⟨c, hc, hcp⟩ := Option.map_eq_some'.mp hp
      obtain ⟨c2, hc2, hc2eq⟩ : ∃ c2, (sortCells (db.priceCells.filter
          (fun c => c.priceBandId == priceBandId))).head? = some c2 ∧ c2 = c := by
        exact ⟨c, hc, rfl⟩
      obtain ⟨hmem, hmin⟩ := sortCells_head_min _ c hc
      exact ⟨c, hmem, hcp, fun d hd => (cellBefore_false_iff_lexLe c d).mp (hmin d hd)⟩

/-- Witness for C4: on the sample band "A" the minimum price is 15,
the price of the 500mm × 500mm cell, which precedes both other
cells. -/
theorem minimumPrice_spec_witness :
    ∃ c ∈ sampleDb.priceCells.filter (fun c => c.priceBandId == "A"),
      c.price = 15 ∧
      ∀ d ∈ sampleDb.priceCells.filter (fun c => c.priceBandId == "A"),
        cellLexLe c d :=
  (minimumPrice_spec sampleDb "A").2 15 (by with_unfolding_all decide)

/-! ### C5: batch versus single minimum prices -/

theorem groupKeys_mem :
    ∀ (l : List PriceCell) (k : String),
      k ∈ groupKeys l ↔ ∃ c ∈ l, c.priceBandId = k := by
  intro l
  induction l with
  | nil => intro k; simp [groupKeys]
  | cons c cs ih =>
    intro k
    unfold groupKeys
    by_cases hk : k = c.priceBandId
    · subst hk
      simp
    · simp only [List.mem_cons]
      constructor
      · rintro (h | h)
        · exact absurd h hk
        · obtain ⟨x, hx, hxe⟩ := (ih k).mp (List.mem_filter.mp h).1
          exact ⟨x, Or.inr hx, hxe⟩
      · rintro ⟨x, hx, hxe⟩
        rcases hx with rfl | hxm
        · exact absurd hxe.symm hk
        · right
          refine List.mem_filter.mpr ⟨(ih k).mpr ⟨x, hxm, hxe⟩, ?_⟩
          simp [hk]

theorem groupKeys_nodup : ∀ l : List PriceCell, (groupKeys l).Nodup := by
  intro l
  induction l with
  | nil => simp [groupKeys]
  | cons c cs ih =>
    unfold groupKeys
    refine List.Nodup.cons ?_ (ih.filter _)
    intro hmem
    have := (List.mem_filter.mp hmem).2
    simp at this

theorem lookup_cons_pair (a k : String) (b : ℚ) (es : List (String × ℚ)) :
    List.lookup a ((k, b) :: es) = if a = k then some b else List.lookup a es := by
  by_cases h : a = k
  · simp [List.lookup, h]
  · have hbeq : (a == k) = false := by simp [h]
    simp [List.lookup, hbeq, h]

theorem lookup_filterMap_keys (g : String → Option ℚ) :
    ∀ (ks : List String) (a : String), ks.Nodup →
      List.lookup a (ks.filterMap (fun k => (g k).map (fun q => (k, q)))) =
        if a ∈ ks then g a else none := by
  intro ks
  induction ks with
  | nil => intro a _; simp
  | cons k ks ih =>
    intro a hnd
    rw [List.nodup_cons] at hnd
    obtain ⟨hknotin, hndtail⟩ := hnd
    cases hg : g k with
    | none =>
      rw [List.filterMap_cons_none (by simp [hg]), ih a hndtail]
      by_cases hid : a = k
      · subst hid
        simp [hg, fun hmem => hknotin hmem]
      · simp [hid]
    | some q =>
      rw [@List.filterMap_cons_some String (String × ℚ)
        (fun k => (g k).map (fun q => (k, q))) k ks (k, q) (by simp [hg]),
        lookup_cons_pair, ih a hndtail]
      by_cases hid : a = k
      · subst hid
        simp [hg, fun hmem => hknotin hmem]
      · simp [hid]

/-- C5 as stated is false on the code: the empty string is a genuine
price-band id of `emptyIdDb` whose single-band minimum price is 9, it
is in the requested id set, yet the batch result has no entry for it
(the batch form filters falsy ids out). -/
theorem batchMinimum_counterexample :
    (⟨"", "Unnamed Band"⟩ : PriceBand) ∈ emptyIdDb.priceBands ∧
    getMinimumPrice emptyIdDb "" = some 9 ∧
    ("" : String) ∈ [""] ∧
    List.lookup "" (getMinimumPricesBatch emptyIdDb [""]) = none := by
  with_unfolding_all decide

/-- C5 amended: for every requested id other than the empty string,
the batch result maps the id to exactly the single-band minimum price
(in particular an id whose single-band result is `none` has no batch
entry); an empty-string id is dropped by the falsy-id
filter of the batch form. -/
theorem batchMinimum_agrees (db : Db) (ids : List String) (id : String)
    (hmem : id ∈ ids) (hne : id ≠ "") :
    List.lookup id (getMinimumPricesBatch db ids) = getMinimumPrice db id := by
  have hidv : id ∈ ids.filter (fun i => i ≠ "") :=
    List.mem_filter.mpr ⟨hmem, by simp [hne]⟩
  simp only [getMinimumPricesBatch]
  split
  case isTrue h =>
    rw [List.length_eq_zero.mp h] at hmem
    simp at hmem
  case isFalse h1 =>
    split
    case isTrue h2 =>
      rw [List.length_eq_zero.mp h2] at hidv
      simp at hidv
    case isFalse h2 =>
      set P := db.priceCells.filter
        (fun c => (ids.filter (fun i => i ≠ "")).contains c.priceBandId) with hP
      have hfm : (groupKeys P).filterMap (fun k =>
          match sortCells (P.filter (fun c => c.priceBandId == k)) with
          | [] => none
          | c :: _ => some (k, c.price)) =
          (groupKeys P).filterMap (fun k =>
            ((sortCells (P.filter (fun c => c.priceBandId == k))).head?.map
              (fun c => c.price)).map (fun q => (k, q))) := by
        apply List.filterMap_congr
        intro k _
        cases hsc : sortCells (P.filter (fun c => c.priceBandId == k)) <;> simp [hsc]
      rw [hfm, lookup_filterMap_keys _ (groupKeys P) id (groupKeys_nodup P)]
      have hPfilter : P.filter (fun c => c.priceBandId == id) =
          db.priceCells.filter (fun c => c.priceBandId == id) := by
        rw [hP, List.filter_filter]
        apply List.filter_congr
        intro c _
        by_cases hc : c.priceBandId = id
        · simp [hc]
          exact ⟨hmem, hne⟩
        · simp [hc]
      by_cases hcells : db.priceCells.filter (fun c => c.priceBandId == id) = []
      · have hpe : P.filter (fun c => c.priceBandId == id) = [] := by
          rw [hPfilter, hcells]
        by_cases hg : id ∈ groupKeys P
        · simp [hg, hpe, sortCells, getMinimumPrice, hcells]
        · simp [hg, getMinimumPrice, hcells]
      · obtain ⟨c, hc⟩ := List.exists_mem_of_ne_nil _ hcells
        have hcmemdb := (List.mem_filter.mp hc).1
        have hcid : c.priceBandId = id := by
          simpa using (List.mem_filter.mp hc).2
        have hcP : c ∈ P := by
          rw [hP]
          refine List.mem_filter.mpr ⟨hcmemdb, ?_⟩
          simp [hcid]
          exact ⟨hmem, hne⟩
        have hg : id ∈ groupKeys P := (groupKeys_mem P id).mpr ⟨c, hcP, hcid⟩
        rw [if_pos hg, hPfilter]
        simp only [getMinimumPrice]
        rw [if_neg (by simp [hcells])]

/-- Witness for C5 (amended): at the sample catalog the batch lookup
for "A" (requested alongside an id with no cells) equals the single
form. -/
theorem batchMinimum_agrees_witness :
    List.lookup "A" (getMinimumPricesBatch sampleDb ["A", "missing"]) =
      getMinimumPrice sampleDb "A" :=
  batchMinimum_agrees sampleDb ["A", "missing"] "A"
    (by with_unfolding_all decide) (by with_unfolding_all decide)

end YourNextBlinds
